import Mathlib

/-!
Verification of the QueueClip clipboard-queue utility.

Strings from the Python source are modelled as `List Char`.  Each definition
is a direct shallow embedding of the function of the same name in
`src/queueclip/`; stateful methods become explicit state-passing functions,
and operations that can raise (Python `ValueError` from `str.split` with an
empty separator) return `Option`.
-/

/-- Whitespace test used by Python `str.strip()` with no arguments: the
characters for which `str.isspace()` holds (ASCII whitespace, the ASCII
separator controls, and the Unicode space characters). -/
def pyIsSpace (c : Char) : Bool :=
  c.toNat ∈ [0x09, 0x0a, 0x0b, 0x0c, 0x0d, 0x1c, 0x1d, 0x1e, 0x1f, 0x20,
             0x85, 0xa0, 0x1680, 0x2000, 0x2001, 0x2002, 0x2003, 0x2004,
             0x2005, 0x2006, 0x2007, 0x2008, 0x2009, 0x200a, 0x2028,
             0x2029, 0x202f, 0x205f, 0x3000]

/-- Python `s.strip()`: remove leading and trailing whitespace. -/
def pyStrip (l : List Char) : List Char :=
  List.rdropWhile pyIsSpace (List.dropWhile pyIsSpace l)

/-- Python `needle in hay` for strings: substring test. -/
def containsSub : List Char → List Char → Bool
  | hay, needle =>
    if needle.isPrefixOf hay then true
    else
      match hay with
      | [] => false
      | _ :: t => containsSub t needle

/-- Python `text.replace('\r\n', '\n')`: a single left-to-right scan that,
at each occurrence of `'\r'` immediately followed by `'\n'`, emits `'\n'`
and skips past both characters (occurrences of the pattern cannot
overlap). -/
def pyReplaceCRLF : List Char → List Char
  | [] => []
  | '\r' :: '\n' :: rest => '\n' :: pyReplaceCRLF rest
  | c :: rest => c :: pyReplaceCRLF rest

/-- Fuelled worker for Python `text.split(sep)` with a non-empty separator:
at each position, if `sep` matches, close the current segment and skip past
the separator, otherwise move one character into the current segment.
The fuel only serves to make the recursion structural; `pySplit` supplies
enough fuel that the fuel-exhausted equation is never reached. -/
def pySplitF : Nat → List Char → List Char → List (List Char)
  | 0, _, s => [s]
  | _ + 1, _, [] => [[]]
  | f + 1, sep, c :: rest =>
    if !sep.isEmpty && sep.isPrefixOf (c :: rest) then
      [] :: pySplitF f sep ((c :: rest).drop sep.length)
    else
      match pySplitF f sep rest with
      | [] => [[c]]
      | s :: ss => (c :: s) :: ss

/-- Python `text.split(sep)` for a non-empty separator `sep`.  (For the
empty separator Python raises `ValueError`; callers model that case
separately and never call `pySplit` with `sep = []`.) -/
def pySplit (sep s : List Char) : List (List Char) :=
  pySplitF (s.length + 1) sep s

/-- The list comprehension in `QueueManager.load_text`:
`[line.strip() for line in lines if line.strip()]`. -/
def stripFilter (lines : List (List Char)) : List (List Char) :=
  (lines.map pyStrip).filter fun l => !l.isEmpty

/-- Proof-side restatement of splitting on a single newline character;
shown equal to `pySplit ['\n']` below. -/
def splitNl : List Char → List (List Char)
  | [] => [[]]
  | c :: rest =>
    if c = '\n' then [] :: splitNl rest
    else
      match splitNl rest with
      | [] => [[c]]
      | s :: ss => (c :: s) :: ss

/-- Apply `f` to every element of a list except the last one. -/
def applyInit (f : List Char → List Char) : List (List Char) → List (List Char)
  | [] => []
  | [a] => [a]
  | a :: b :: rest => f a :: applyInit f (b :: rest)

/-- Remove a single trailing carriage return, if present. -/
def dropCR (l : List Char) : List Char :=
  if l.getLast? = some '\r' then l.dropLast else l

/- ## Queue manager (`src/queueclip/queue_manager.py`) -/

/-- Class constant `QueueManager.DELIMITER_NEWLINE`. -/
def DELIMITER_NEWLINE : List Char := ['\n']

/-- Class constant `QueueManager.DELIMITER_COMMA`. -/
def DELIMITER_COMMA : List Char := [',']

/-- Class constant `QueueManager.DELIMITER_TAB`. -/
def DELIMITER_TAB : List Char := ['\t']

/-- Class constant `QueueManager.DELIMITER_SEMICOLON`. -/
def DELIMITER_SEMICOLON : List Char := [';']

/-- The mutable state of a `QueueManager` instance: `_queue`,
`_original_queue`, `_delimiter`, `_loop_mode` and `_current_index`. -/
structure QMState where
  queue : List (List Char)
  original_queue : List (List Char)
  delimiter : List Char
  loop_mode : Bool
  current_index : Nat
deriving DecidableEq

/-- State produced by `QueueManager.__init__`. -/
def initQM : QMState :=
  { queue := [], original_queue := [], delimiter := DELIMITER_NEWLINE,
    loop_mode := false, current_index := 0 }

/-- The `delimiter` property setter: `value if value else DELIMITER_NEWLINE`. -/
def set_delimiter (s : QMState) (value : List Char) : QMState :=
  { s with delimiter := if value = [] then DELIMITER_NEWLINE else value }

/-- The `loop_mode` property setter. -/
def set_loop_mode (s : QMState) (value : Bool) : QMState :=
  { s with loop_mode := value }

/-- `QueueManager.load_text(text, delimiter=None)`.  Returns `none` when the
effective delimiter is the empty string, in which case Python's
`text.split('')` raises `ValueError` (note the `_delimiter` field is
assigned before the split, so it is updated even on that failure; `step`
below accounts for this).  Otherwise returns the line count together with
the new state. -/
def load_text (s : QMState) (text : List Char) (delimiter : Option (List Char)) :
    Option (Nat × QMState) :=
  let d := match delimiter with | some v => v | none => s.delimiter
  if d = DELIMITER_NEWLINE then
    let q := stripFilter (pySplit DELIMITER_NEWLINE (pyReplaceCRLF text))
    some (q.length,
      { queue := q, original_queue := q, delimiter := d,
        loop_mode := s.loop_mode, current_index := 0 })
  else if d = [] then
    none
  else
    let q := stripFilter (pySplit d text)
    some (q.length,
      { queue := q, original_queue := q, delimiter := d,
        loop_mode := s.loop_mode, current_index := 0 })

/-- `QueueManager.peek_next`. -/
def peek_next (s : QMState) : Option (List Char) :=
  s.queue.head?

/-- The tail of `pop_next`: `if self._queue: line = self._queue.pop(0);
return line` / `return None`. -/
def popFront (s : QMState) : Option (List Char) × QMState :=
  match s.queue with
  | [] => (none, s)
  | line :: rest => (some line, { s with queue := rest })

/-- `QueueManager.pop_next`: when the live queue is empty, reload it from
`_original_queue` if loop mode is on and the snapshot is non-empty,
otherwise return `None`; then pop the front of the (possibly reloaded)
queue. -/
def pop_next (s : QMState) : Option (List Char) × QMState :=
  if s.queue = [] then
    if s.loop_mode ∧ s.original_queue ≠ [] then
      popFront { s with queue := s.original_queue }
    else
      (none, s)
  else
    popFront s

/-- `QueueManager.get_count`. -/
def get_count (s : QMState) : Nat :=
  s.queue.length

/-- `QueueManager.get_total`. -/
def get_total (s : QMState) : Nat :=
  s.original_queue.length

/-- `QueueManager.get_current_position`:
`total - remaining + 1 if total > 0 else 0` over Python integers. -/
def get_current_position (s : QMState) : Int :=
  if 0 < get_total s then (get_total s : Int) - (get_count s : Int) + 1 else 0

/-- `QueueManager.is_empty`. -/
def is_empty (s : QMState) : Bool :=
  s.queue.length = 0

/-- `QueueManager.clear`. -/
def clear (s : QMState) : QMState :=
  { s with queue := [], original_queue := [], current_index := 0 }

/-- The queue-manager operations quantified over by the invariant claim. -/
inductive QOp
  | load (text : List Char) (delimiter : Option (List Char))
  | peek
  | pop
  | clearQ
  | setDelimiter (value : List Char)
  | setLoopMode (value : Bool)

/-- One queue-manager operation applied to a state.  A failing `load_text`
(empty-string delimiter) leaves the queues untouched but has already
assigned `_delimiter`. -/
def step (s : QMState) : QOp → QMState
  | .load text delimiter =>
    match load_text s text delimiter with
    | some (_, s') => s'
    | none => { s with delimiter := match delimiter with | some v => v | none => s.delimiter }
  | .peek => s
  | .pop => (pop_next s).2
  | .clearQ => clear s
  | .setDelimiter value => set_delimiter s value
  | .setLoopMode value => set_loop_mode s value

/-- Run a sequence of operations from the freshly constructed manager. -/
def runOps (ops : List QOp) : QMState :=
  ops.foldl step initQM

/- ## Clipboard restore cycle (`src/queueclip/main.py`, `_on_paste_triggered`)
and monitor state (`src/queueclip/clipboard_monitor.py`) -/

/-- The state touched by the delayed `restore_clipboard` callback: the
system clipboard, the monitor's `_last_content`, and the monitor's
`_paused` flag. -/
structure ClipState where
  clip : List Char
  last_content : List Char
  paused : Bool
deriving DecidableEq

/-- The `restore_clipboard` closure scheduled by `_on_paste_triggered`:
read the clipboard; if it still equals the queue line that was written,
write back the saved pre-paste value and record it as the monitor's last
content, otherwise leave the clipboard alone and record the externally set
value; in both cases resume the monitor (`finally`). -/
def restore_clipboard (original_clipboard current_line : List Char)
    (st : ClipState) : ClipState :=
  let current_clip := st.clip
  if current_clip = current_line then
    { clip := original_clipboard, last_content := original_clipboard, paused := false }
  else
    { clip := st.clip, last_content := current_clip, paused := false }

/- ## Settings (`src/queueclip/settings.py`) -/

/-- JSON-representable setting values (the float default `0.9` is carried
as the rational `9/10`; no arithmetic is ever performed on it). -/
inductive SVal
  | s (v : String)
  | b (v : Bool)
  | i (v : Int)
  | q (v : ℚ)
deriving DecidableEq

/-- `DEFAULT_SETTINGS` from `settings.py`. -/
def DEFAULT_SETTINGS : List (String × SVal) :=
  [("delimiter", .s "newline"),
   ("loop_mode", .b false),
   ("show_indicator", .b true),
   ("min_lines", .i 2),
   ("indicator_opacity", .q (9 / 10)),
   ("indicator_position", .s "top-right"),
   ("hotkey", .s "F9"),
   ("paste_delay", .i 350)]

/-- Lookup in `DEFAULT_SETTINGS` (Python dict access on the defaults). -/
def defaultLookup (k : String) : Option SVal :=
  (DEFAULT_SETTINGS.find? fun p => p.1 = k).map Prod.snd

/-- Outcome of reading the settings file in `Settings.load`: the file may
be absent, reading or parsing it may raise (any exception, caught by the
`except` clause), or it may parse to a JSON object, modelled as a finite
key-value lookup. -/
inductive LoadOutcome
  | missing
  | readError
  | parsed (j : String → Option SVal)

/-- `Settings.load`: on a parsed object the stored dict is
`{**DEFAULT_SETTINGS, **loaded}` (keys of `loaded` win); on a missing file
or any read/parse exception it is a copy of the defaults.  The function is
total over outcomes: no exception escapes. -/
def settings_load : LoadOutcome → (String → Option SVal)
  | .missing => defaultLookup
  | .readError => defaultLookup
  | .parsed j => fun k =>
      match j k with
      | some v => some v
      | none => defaultLookup k

/- ## Delimiter application (`src/queueclip/main.py`,
`_set_delimiter_from_settings`) -/

/-- The `delimiter_map.get(delimiter, QueueManager.DELIMITER_NEWLINE)`
lookup: the dict has entries for `'newline'`, `'comma'`, `'tab'` and
`'semicolon'` only; any other value of the `delimiter` setting (including
`'custom'`) falls back to the newline separator. -/
def delimiterMapGet (v : SVal) : List Char :=
  if v = .s "newline" then DELIMITER_NEWLINE
  else if v = .s "comma" then DELIMITER_COMMA
  else if v = .s "tab" then DELIMITER_TAB
  else if v = .s "semicolon" then DELIMITER_SEMICOLON
  else DELIMITER_NEWLINE

/-- The `Settings.delimiter` property: `self._settings.get('delimiter', 'newline')`. -/
def settings_delimiter (st : String → Option SVal) : SVal :=
  match st "delimiter" with
  | some v => v
  | none => .s "newline"

/-- `QueueClipApp._set_delimiter_from_settings`: map the stored delimiter
name through `delimiter_map` and assign the result to the queue manager's
`delimiter` property. -/
def set_delimiter_from_settings (st : String → Option SVal) (qm : QMState) : QMState :=
  set_delimiter qm (delimiterMapGet (settings_delimiter st))

/-- A settings store as produced by saving the settings dialog with the
`Custom` delimiter selected and `;` typed into the custom-delimiter field:
`delimiter` is `'custom'` and `custom_delimiter` is `';'`, over the
defaults. -/
def customSettings : String → Option SVal := fun k =>
  if k = "delimiter" then some (.s "custom")
  else if k = "custom_delimiter" then some (.s ";")
  else defaultLookup k

/- ## Hotkey detection (`src/queueclip/hotkey_handler.py`) -/

/-- The members of pynput's `keyboard.Key` enum (special keys, which carry
a `name` attribute and no `char` attribute).  The constructor for the
`end` key is spelled `end_key` because `end` is reserved in Lean; its name
string is still `"end"`. -/
inductive KeyName
  | alt | alt_gr | alt_l | alt_r
  | backspace | caps_lock
  | cmd | cmd_l | cmd_r
  | ctrl | ctrl_l | ctrl_r
  | delete | down | end_key | enter | esc
  | f1 | f2 | f3 | f4 | f5 | f6 | f7 | f8 | f9 | f10
  | f11 | f12 | f13 | f14 | f15 | f16 | f17 | f18 | f19 | f20
  | home | insert | left
  | media_next | media_play_pause | media_previous
  | media_volume_down | media_volume_mute | media_volume_up
  | menu | num_lock | page_down | page_up | pause | print_screen
  | right | scroll_lock
  | shift | shift_l | shift_r
  | space | tab | up
deriving DecidableEq, Fintype

/-- The `name` attribute of each `keyboard.Key` member. -/
def keyNameStr : KeyName → List Char
  | .alt => "alt".toList
  | .alt_gr => "alt_gr".toList
  | .alt_l => "alt_l".toList
  | .alt_r => "alt_r".toList
  | .backspace => "backspace".toList
  | .caps_lock => "caps_lock".toList
  | .cmd => "cmd".toList
  | .cmd_l => "cmd_l".toList
  | .cmd_r => "cmd_r".toList
  | .ctrl => "ctrl".toList
  | .ctrl_l => "ctrl_l".toList
  | .ctrl_r => "ctrl_r".toList
  | .delete => "delete".toList
  | .down => "down".toList
  | .end_key => "end".toList
  | .enter => "enter".toList
  | .esc => "esc".toList
  | .f1 => "f1".toList
  | .f2 => "f2".toList
  | .f3 => "f3".toList
  | .f4 => "f4".toList
  | .f5 => "f5".toList
  | .f6 => "f6".toList
  | .f7 => "f7".toList
  | .f8 => "f8".toList
  | .f9 => "f9".toList
  | .f10 => "f10".toList
  | .f11 => "f11".toList
  | .f12 => "f12".toList
  | .f13 => "f13".toList
  | .f14 => "f14".toList
  | .f15 => "f15".toList
  | .f16 => "f16".toList
  | .f17 => "f17".toList
  | .f18 => "f18".toList
  | .f19 => "f19".toList
  | .f20 => "f20".toList
  | .home => "home".toList
  | .insert => "insert".toList
  | .left => "left".toList
  | .media_next => "media_next".toList
  | .media_play_pause => "media_play_pause".toList
  | .media_previous => "media_previous".toList
  | .media_volume_down => "media_volume_down".toList
  | .media_volume_mute => "media_volume_mute".toList
  | .media_volume_up => "media_volume_up".toList
  | .menu => "menu".toList
  | .num_lock => "num_lock".toList
  | .page_down => "page_down".toList
  | .page_up => "page_up".toList
  | .pause => "pause".toList
  | .print_screen => "print_screen".toList
  | .right => "right".toList
  | .scroll_lock => "scroll_lock".toList
  | .shift => "shift".toList
  | .shift_l => "shift_l".toList
  | .shift_r => "shift_r".toList
  | .space => "space".toList
  | .tab => "tab".toList
  | .up => "up".toList

/-- A pynput key as seen by the listener: either a `Key` enum member
(`named`), or a `KeyCode` with its optional `char` and `vk` attributes. -/
inductive PKey
  | named (k : KeyName)
  | code (char : Option Char) (vk : Option Nat)
deriving DecidableEq

/-- `HotkeyHandler._keys_match`: direct equality; else, for two named keys,
the four substring checks (`'cmd' in name1 and 'cmd' in name2`, then
`ctrl`, `alt`, `shift`); else, for two `KeyCode`s whose `char` attributes
are both present, case-insensitive character comparison; else `False`. -/
def keys_match (key1 key2 : PKey) : Bool :=
  if key1 = key2 then true
  else
    match key1, key2 with
    | .named n1, .named n2 =>
      let name1 := keyNameStr n1
      let name2 := keyNameStr n2
      if containsSub name1 "cmd".toList && containsSub name2 "cmd".toList then true
      else if containsSub name1 "ctrl".toList && containsSub name2 "ctrl".toList then true
      else if containsSub name1 "alt".toList && containsSub name2 "alt".toList then true
      else if containsSub name1 "shift".toList && containsSub name2 "shift".toList then true
      else false
    | .code (some c1) _, .code (some c2) _ => c1.toLower = c2.toLower
    | _, _ => false

/-- `HotkeyHandler._check_hotkey`: every key of the hotkey combination must
match some currently pressed key. -/
def check_hotkey (hotkey_combination current_keys : List PKey) : Bool :=
  hotkey_combination.all fun hk => current_keys.any fun ck => keys_match hk ck

/-- The four modifier families named by the spec. -/
def modifierStrs : List (List Char) :=
  ["cmd".toList, "ctrl".toList, "alt".toList, "shift".toList]

/-- Modelled from the spec: a key is a left/right/plain variant of the
modifier `m` when its name is `m`, `m_l` or `m_r`. -/
def isVariantSpec (k : PKey) (m : List Char) : Bool :=
  match k with
  | .named n =>
    keyNameStr n == m || keyNameStr n == m ++ "_l".toList || keyNameStr n == m ++ "_r".toList
  | .code _ _ => false

/-- Modelled from the spec: two keys match when they are equal, when both
are left/right/plain variants of the same modifier, or when they are
character keys with the same character ignoring case. -/
def specKeysMatch (k1 k2 : PKey) : Bool :=
  k1 == k2 ||
  modifierStrs.any (fun m => isVariantSpec k1 m && isVariantSpec k2 m) ||
  (match k1, k2 with
   | .code (some c1) _, .code (some c2) _ => c1.toLower == c2.toLower
   | _, _ => false)

/-- Amended variant relation: as `isVariantSpec`, and additionally AltGr
counts as a variant of `alt` (the code's substring test `'alt' in
'alt_gr'` accepts it). -/
def isVariantAmended (k : PKey) (m : List Char) : Bool :=
  isVariantSpec k m || (m == "alt".toList && k == PKey.named .alt_gr)

/-- Amended key-match relation: equality, same-modifier variants with
AltGr counted as an alt variant, or case-insensitive character equality. -/
def amendedKeysMatch (k1 k2 : PKey) : Bool :=
  k1 == k2 ||
  modifierStrs.any (fun m => isVariantAmended k1 m && isVariantAmended k2 m) ||
  (match k1, k2 with
   | .code (some c1) _, .code (some c2) _ => c1.toLower == c2.toLower
   | _, _ => false)

/-- Modelled from the spec for claim C3: the whitespace-stripped, non-empty
segments of `text` split on the delimiter `D`, in their original order. -/
def specSegments (D text : List Char) : List (List Char) :=
  ((pySplit D text).map pyStrip).filter fun l => !l.isEmpty

/- ## Helper lemmas -/

theorem pySplitF_newline (f : Nat) :
    ∀ u : List Char, u.length < f → pySplitF f ['\n'] u = splitNl u := by
  induction f with
  | zero => intro u h; exact absurd h (by omega)
  | succ f ih =>
    intro u h
    match u with
    | [] => rfl
    | c :: rest =>
      have hr : pySplitF f ['\n'] rest = splitNl rest := by
        refine ih rest ?hlen
        have : rest.length + 1 < f + 1 := by simpa using h
        omega
      by_cases hc : c = '\n'
      · subst hc
        simp [pySplitF, splitNl, List.isPrefixOf, hr]
      · have hbe : (('\n' : Char) == c) = false := beq_eq_false_iff_ne.mpr (Ne.symm hc)
        simp [pySplitF, splitNl, List.isPrefixOf, hbe, hc, hr]

theorem pySplit_newline (u : List Char) : pySplit ['\n'] u = splitNl u :=
  pySplitF_newline (u.length + 1) u (Nat.lt_succ_self _)

theorem splitNl_ne_nil (u : List Char) : splitNl u ≠ [] := by
  match u with
  | [] => simp [splitNl]
  | c :: rest =>
    simp only [splitNl]
    split
    · simp
    · split <;> simp

theorem splitNl_cons_of_ne (c : Char) (rest : List Char) (hc : c ≠ '\n') :
    ∃ s ss, splitNl (c :: rest) = (c :: s) :: ss ∧
      (s :: ss = splitNl rest ∨ (splitNl rest = [s] ∧ ss = [] ∧ s = [])) := by
  simp only [splitNl, if_neg hc]
  match h : splitNl rest with
  | [] => exact absurd h (splitNl_ne_nil rest)
  | s :: ss => exact ⟨s, ss, rfl, Or.inl rfl⟩

theorem dropCR_cons_cons (c x : Char) (xs : List Char) :
    dropCR (c :: x :: xs) = c :: dropCR (x :: xs) := by
  simp only [dropCR, List.getLast?_cons_cons, List.dropLast_cons₂]
  split <;> rfl

theorem dropCR_singleton (c : Char) (hc : c ≠ '\r') : dropCR [c] = [c] := by
  simp [dropCR, hc]

theorem pyStrip_concat_cr (l : List Char) : pyStrip (l ++ ['\r']) = pyStrip l := by
  unfold pyStrip
  rw [List.dropWhile_append]
  split
  · next h =>
    rw [List.isEmpty_iff] at h
    rw [h]
    simp [List.dropWhile, pyIsSpace, List.rdropWhile]
  · exact List.rdropWhile_concat_pos pyIsSpace _ '\r' (by decide)

theorem pyStrip_dropCR (l : List Char) : pyStrip (dropCR l) = pyStrip l := by
  by_cases h : l.getLast? = some '\r'
  · have hl : l.dropLast ++ ['\r'] = l := List.dropLast_append_getLast? '\r' h
    have : dropCR l = l.dropLast := by simp [dropCR, h]
    rw [this]
    conv_rhs => rw [← hl]
    exact (pyStrip_concat_cr l.dropLast).symm
  · simp [dropCR, h]

theorem splitNl_head_empty (rest b : List Char) (ss : List (List Char))
    (h : splitNl rest = [] :: b :: ss) : rest.head? = some '\n' := by
  match rest with
  | [] => simp [splitNl] at h
  | c :: rest' =>
    by_cases hc : c = '\n'
    · simp [hc]
    · obtain ⟨s, ss', hs, _⟩ := splitNl_cons_of_ne c rest' hc
      rw [hs] at h
      simp at h

theorem map_pyStrip_applyInit : ∀ M, (applyInit dropCR M).map pyStrip = M.map pyStrip
  | [] => rfl
  | [_] => rfl
  | _ :: b :: rest => by
    simp only [applyInit, List.map_cons, pyStrip_dropCR, map_pyStrip_applyInit (b :: rest)]

theorem stripFilter_applyInit (M : List (List Char)) :
    stripFilter (applyInit dropCR M) = stripFilter M := by
  unfold stripFilter
  rw [map_pyStrip_applyInit]

theorem splitNl_exists_cons (rest : List Char) : ∃ t ts, splitNl rest = t :: ts := by
  cases h : splitNl rest with
  | nil => exact absurd h (splitNl_ne_nil rest)
  | cons t ts => exact ⟨t, ts, rfl⟩

theorem splitNl_replace (u : List Char) :
    splitNl (pyReplaceCRLF u) = applyInit dropCR (splitNl u) := by
  induction u using pyReplaceCRLF.induct with
  | case1 => rfl
  | case2 rest ih =>
    rw [pyReplaceCRLF.eq_2]
    have hL : splitNl ('\n' :: pyReplaceCRLF rest) = [] :: splitNl (pyReplaceCRLF rest) := by
      simp [splitNl]
    have hR : splitNl ('\r' :: '\n' :: rest) = ['\r'] :: splitNl rest := by
      simp [splitNl]
    rw [hL, hR, ih]
    obtain ⟨t, ts, ht⟩ := splitNl_exists_cons rest
    rw [ht]
    simp [applyInit, dropCR]
  | case3 c rest hexcl ih =>
    rw [pyReplaceCRLF.eq_3 c rest hexcl]
    by_cases hc : c = '\n'
    · subst hc
      have hL : splitNl ('\n' :: pyReplaceCRLF rest) = [] :: splitNl (pyReplaceCRLF rest) := by
        simp [splitNl]
      have hR : splitNl ('\n' :: rest) = [] :: splitNl rest := by
        simp [splitNl]
      rw [hL, hR, ih]
      obtain ⟨t, ts, ht⟩ := splitNl_exists_cons rest
      rw [ht]
      simp [applyInit, dropCR]
    · obtain ⟨t, ts, ht⟩ := splitNl_exists_cons rest
      have hL : splitNl (c :: pyReplaceCRLF rest) =
          match splitNl (pyReplaceCRLF rest) with
          | [] => [[c]]
          | s :: ss => (c :: s) :: ss := by
        simp only [splitNl, if_neg hc]
      have hR : splitNl (c :: rest) = (c :: t) :: ts := by
        simp only [splitNl, if_neg hc, ht]
      rw [hL, hR, ih, ht]
      match ts with
      | [] => simp [applyInit]
      | b :: ts' =>
        show (match (applyInit dropCR (t :: b :: ts')) with
              | [] => [[c]]
              | s :: ss => (c :: s) :: ss) =
            applyInit dropCR ((c :: t) :: b :: ts')
        have hcons : c :: dropCR t = dropCR (c :: t) := by
          match t with
          | x :: xs => exact (dropCR_cons_cons c x xs).symm
          | [] =>
            have hhead : rest.head? = some '\n' := splitNl_head_empty rest b ts' (ht ▸ rfl)
            have hcr : c ≠ '\r' := by
              intro hcr
              cases rest with
              | nil => simp at hhead
              | cons r rest₂ =>
                simp only [List.head?_cons, Option.some.injEq] at hhead
                exact hexcl rest₂ hcr (by rw [hhead])
            rw [dropCR_singleton c hcr]
            rfl
        simp only [applyInit]
        rw [← hcons]

theorem stripFilter_splitNl_replace (u : List Char) :
    stripFilter (splitNl (pyReplaceCRLF u)) = stripFilter (splitNl u) := by
  rw [splitNl_replace, stripFilter_applyInit]

/- ## Claim theorems -/

/-- Claim C1: for every queue state whose live queue is empty, `pop_next`
returns `None` when loop mode is off; when loop mode is on it reloads from
the original snapshot, returns the snapshot's first element, and leaves
`snapshot length - 1` items remaining.  (With an empty snapshot there is no
first element and the result is `none`; the remaining count equation holds
with truncated subtraction.) -/
theorem pop_next_on_empty_queue (s : QMState) (h : s.queue = []) :
    (s.loop_mode = false → (pop_next s).1 = none) ∧
    (s.loop_mode = true →
      (pop_next s).1 = s.original_queue.head? ∧
      (pop_next s).2.queue.length = s.original_queue.length - 1) := by
  constructor
  · intro hl
    simp [pop_next, h, hl]
  · intro hl
    by_cases ho : s.original_queue = []
    · simp [pop_next, h, hl, ho]
    · obtain ⟨l, rest, hrest⟩ : ∃ l rest, s.original_queue = l :: rest := by
        cases hq : s.original_queue with
        | nil => exact absurd hq ho
        | cons l rest => exact ⟨l, rest, rfl⟩
      simp [pop_next, h, hl, ho, popFront, hrest]

/-- Witness for C1 at a concrete looping state with snapshot `["a", "b"]`. -/
theorem pop_next_on_empty_queue_witness :
    (pop_next { queue := [], original_queue := [['a'], ['b']], delimiter := ['\n'],
                loop_mode := true, current_index := 0 }).1 = some ['a'] ∧
    (pop_next { queue := [], original_queue := [['a'], ['b']], delimiter := ['\n'],
                loop_mode := true, current_index := 0 }).2.queue.length = 1 :=
  (pop_next_on_empty_queue _ rfl).2 rfl

/-- Claim C9: when both the live queue and the snapshot are empty,
`pop_next` returns `None` even in loop mode and leaves the entire state
unchanged. -/
theorem pop_next_both_empty (s : QMState) (h1 : s.queue = [])
    (h2 : s.original_queue = []) : pop_next s = (none, s) := by
  simp [pop_next, h1, h2]

/-- Witness for C9 at a concrete empty state with loop mode on. -/
theorem pop_next_both_empty_witness :
    pop_next { queue := [], original_queue := [], delimiter := [';'],
               loop_mode := true, current_index := 3 } =
      (none, { queue := [], original_queue := [], delimiter := [';'],
               loop_mode := true, current_index := 3 }) :=
  pop_next_both_empty _ rfl rfl

/-- Claim C5: `get_current_position` equals `total - remaining + 1` when the
snapshot is non-empty and `0` when it is empty. -/
theorem get_current_position_formula (s : QMState) :
    (0 < get_total s →
      get_current_position s = (get_total s : Int) - (get_count s : Int) + 1) ∧
    (get_total s = 0 → get_current_position s = 0) := by
  constructor
  · intro h
    simp [get_current_position, h]
  · intro h
    simp [get_current_position, h]

/-- Witness for C5 at a two-element snapshot with one line remaining. -/
theorem get_current_position_formula_witness :
    get_current_position { queue := [['b']], original_queue := [['a'], ['b']],
                           delimiter := ['\n'], loop_mode := false, current_index := 0 } = 2 :=
  ((get_current_position_formula _).1 (by decide)).trans (by decide)

/-- Claim C2: the delayed restore callback writes the saved pre-paste value
back to the clipboard exactly when the clipboard still holds the queue line
that was written for pasting; otherwise it leaves the clipboard alone and
the monitor adopts the externally set value as its tracked last content. -/
theorem restore_clipboard_guard (original_clipboard current_line : List Char)
    (st : ClipState) :
    (st.clip = current_line →
      (restore_clipboard original_clipboard current_line st).clip = original_clipboard ∧
      (restore_clipboard original_clipboard current_line st).last_content =
        original_clipboard) ∧
    (st.clip ≠ current_line →
      (restore_clipboard original_clipboard current_line st).clip = st.clip ∧
      (restore_clipboard original_clipboard current_line st).last_content = st.clip) := by
  constructor
  · intro h
    simp [restore_clipboard, h]
  · intro h
    simp [restore_clipboard, h]

/-- Witness for C2: one unchanged-clipboard run and one externally-changed
run at concrete values. -/
theorem restore_clipboard_guard_witness :
    (restore_clipboard ['x'] ['q'] { clip := ['q'], last_content := ['p'], paused := true }).clip = ['x'] ∧
    (restore_clipboard ['x'] ['q'] { clip := ['z'], last_content := ['p'], paused := true }).last_content = ['z'] :=
  ⟨((restore_clipboard_guard ['x'] ['q'] _).1 rfl).1,
   ((restore_clipboard_guard ['x'] ['q'] _).2 (by decide)).2⟩

/-- A successful `load_text` makes the live queue a copy of the snapshot. -/
theorem load_text_queue_eq {s : QMState} {text : List Char}
    {delimiter : Option (List Char)} {n : Nat} {s' : QMState}
    (h : load_text s text delimiter = some (n, s')) :
    s'.queue = s'.original_queue := by
  simp only [load_text] at h
  split_ifs at h <;>
    simp only [Option.some.injEq, Prod.mk.injEq, reduceCtorEq] at h <;>
    obtain ⟨-, rfl⟩ := h <;> rfl

/-- Popping never makes the live queue longer than the snapshot. -/
theorem pop_next_state_le (s : QMState)
    (h : s.queue.length ≤ s.original_queue.length) :
    (pop_next s).2.queue.length ≤ (pop_next s).2.original_queue.length := by
  by_cases hq : s.queue = []
  · by_cases hl : s.loop_mode = true ∧ s.original_queue ≠ []
    · cases ho : s.original_queue with
      | nil => exact absurd ho hl.2
      | cons l rest => simp [pop_next, hq, hl.1, hl.2, popFront, ho]
    · have : ¬ (s.loop_mode ∧ s.original_queue ≠ []) := by
        intro hc
        exact hl ⟨hc.1, hc.2⟩
      simp only [pop_next, if_pos hq, if_neg this]
      exact h
  · cases hqc : s.queue with
    | nil => contradiction
    | cons l rest =>
      rw [hqc] at h
      simp only [List.length_cons] at h
      simp [pop_next, popFront, hqc]
      omega

/-- Every queue-manager operation preserves the live-queue-vs-snapshot
length inequality. -/
theorem step_preserves_le (s : QMState) (op : QOp)
    (h : s.queue.length ≤ s.original_queue.length) :
    (step s op).queue.length ≤ (step s op).original_queue.length := by
  cases op with
  | load text delimiter =>
    simp only [step]
    cases hl : load_text s text delimiter with
    | none => exact h
    | some r =>
      obtain ⟨n, s'⟩ := r
      exact le_of_eq (congrArg List.length (load_text_queue_eq hl))
  | peek => exact h
  | pop => exact pop_next_state_le s h
  | clearQ => simp [step, clear]
  | setDelimiter value => exact h
  | setLoopMode value => exact h

/-- Claim C4: after any sequence of queue-manager operations from the
initial state, the live queue is never longer than the original
snapshot. -/
theorem queue_le_snapshot_invariant (ops : List QOp) :
    (runOps ops).queue.length ≤ (runOps ops).original_queue.length := by
  suffices key : ∀ (ops' : List QOp) (s : QMState),
      s.queue.length ≤ s.original_queue.length →
      (ops'.foldl step s).queue.length ≤ (ops'.foldl step s).original_queue.length by
    exact key ops initQM (by simp [initQM])
  intro ops'
  induction ops' with
  | nil => intro s hs; simpa using hs
  | cons op rest ih =>
    intro s hs
    exact ih (step s op) (step_preserves_le s op hs)

/-- Counterexample to claim C3 as stated: with the empty delimiter,
`load_text` does not produce a queue or a count at all — Python's
`text.split('')` raises `ValueError: empty separator`. -/
theorem load_text_empty_delimiter_cex :
    load_text initQM ['a'] (some []) = none := rfl

/-- Claim C3 (amended to non-empty delimiters): for every input text and
every non-empty delimiter `D`, `load_text` loads exactly the
whitespace-stripped non-empty segments of the text split on `D`, in their
original order, and returns their number.  For the newline delimiter the
code first normalises CRLF line endings, which does not change the
resulting segments because stripping removes the carriage returns. -/
theorem load_text_spec_segments (s : QMState) (text D : List Char) (h : D ≠ []) :
    load_text s text (some D) =
      some ((specSegments D text).length,
        { queue := specSegments D text, original_queue := specSegments D text,
          delimiter := D, loop_mode := s.loop_mode, current_index := 0 }) := by
  by_cases hD : D = DELIMITER_NEWLINE
  · subst hD
    have key : stripFilter (pySplit DELIMITER_NEWLINE (pyReplaceCRLF text)) =
        specSegments DELIMITER_NEWLINE text := by
      show stripFilter (pySplit DELIMITER_NEWLINE (pyReplaceCRLF text)) =
        stripFilter (pySplit DELIMITER_NEWLINE text)
      show stripFilter (pySplit ['\n'] (pyReplaceCRLF text)) =
        stripFilter (pySplit ['\n'] text)
      rw [pySplit_newline, pySplit_newline]
      exact stripFilter_splitNl_replace text
    simp [load_text, key]
  · simp only [load_text, if_neg hD, if_neg h]
    rfl

/-- Witness for the amended C3 at text `"a,b"` with the comma delimiter. -/
theorem load_text_spec_segments_witness :
    load_text initQM ['a', ',', 'b'] (some [',']) =
      some ((specSegments [','] ['a', ',', 'b']).length,
        { queue := specSegments [','] ['a', ',', 'b'],
          original_queue := specSegments [','] ['a', ',', 'b'],
          delimiter := [','], loop_mode := false, current_index := 0 }) ∧
    specSegments [','] ['a', ',', 'b'] = [['a'], ['b']] :=
  ⟨load_text_spec_segments initQM ['a', ',', 'b'] [','] (by decide), by decide⟩

/-- Claim C10: with the newline delimiter, loading a text and loading the
same text with every CRLF replaced by LF produce the same queue and the
same count. -/
theorem load_text_crlf_insensitive (s : QMState) (text : List Char)
    (h : s.delimiter = DELIMITER_NEWLINE) :
    load_text s text none = load_text s (pyReplaceCRLF text) none := by
  have key : stripFilter (pySplit DELIMITER_NEWLINE (pyReplaceCRLF text)) =
      stripFilter (pySplit DELIMITER_NEWLINE (pyReplaceCRLF (pyReplaceCRLF text))) := by
    show stripFilter (pySplit ['\n'] (pyReplaceCRLF text)) =
      stripFilter (pySplit ['\n'] (pyReplaceCRLF (pyReplaceCRLF text)))
    rw [pySplit_newline, pySplit_newline]
    simp [stripFilter_splitNl_replace]
  simp [load_text, h, key]

/-- Witness for C10 at the text `"a\r\nb"`. -/
theorem load_text_crlf_insensitive_witness :
    load_text initQM ['a', '\r', '\n', 'b'] none =
      load_text initQM (pyReplaceCRLF ['a', '\r', '\n', 'b']) none :=
  load_text_crlf_insensitive initQM ['a', '\r', '\n', 'b'] rfl

/-- Claim C6 (code bug): with the delimiter setting `'custom'` and a stored
custom delimiter `';'`, `_set_delimiter_from_settings` sets the queue
manager's delimiter to the newline character, not to `';'` — the
`delimiter_map` dict has no `'custom'` key and the stored
`custom_delimiter` value is never read — so loading `"a;b"` yields the
single line `"a;b"` instead of splitting on the custom separator. -/
theorem custom_delimiter_ignored :
    (set_delimiter_from_settings customSettings initQM).delimiter = ['\n'] ∧
    customSettings "custom_delimiter" = some (.s ";") ∧
    (load_text (set_delimiter_from_settings customSettings initQM)
        ['a', ';', 'b'] none).map (fun r => r.2.queue) = some [['a', ';', 'b']] := by
  refine ⟨rfl, by decide, ?_⟩
  decide

/-- Claim C7: a parsed settings object is merged over the documented
defaults key by key, and on a missing file or any read/parse failure the
stored settings are exactly the defaults (the load function is total over
outcomes: no exception escapes). -/
theorem settings_load_merge (j : String → Option SVal) (k : String) :
    (∀ v, j k = some v → settings_load (.parsed j) k = some v) ∧
    (j k = none → settings_load (.parsed j) k = defaultLookup k) ∧
    settings_load .readError k = defaultLookup k ∧
    settings_load .missing k = defaultLookup k := by
  refine ⟨?_, ?_, rfl, rfl⟩
  · intro v hv
    simp [settings_load, hv]
  · intro hv
    simp [settings_load, hv]

/-- Witness for C7: a one-key object overrides `min_lines` and leaves
`delimiter` at its default. -/
theorem settings_load_merge_witness :
    settings_load (.parsed fun k => if k = "min_lines" then some (.i 5) else none)
      "min_lines" = some (.i 5) ∧
    settings_load (.parsed fun k => if k = "min_lines" then some (.i 5) else none)
      "delimiter" = some (.s "newline") := by
  constructor
  · exact (settings_load_merge _ "min_lines").1 (.i 5) (by decide)
  · have h2 := (settings_load_merge
      (fun k => if k = "min_lines" then some (.i 5) else none) "delimiter").2.1 (by decide)
    rw [h2]
    decide

/-- Counterexample to claim C8 as stated: the hotkey `{Key.alt}` is matched
by the pressed key `Key.alt_gr` — the code's substring test accepts
`'alt' in 'alt_gr'` — although AltGr is not a left/right/plain variant of
`alt` in the claim's sense. -/
theorem check_hotkey_altgr_cex :
    check_hotkey [PKey.named .alt] [PKey.named .alt_gr] = true ∧
    ¬ (∀ hk ∈ [PKey.named KeyName.alt], ∃ ck ∈ [PKey.named KeyName.alt_gr],
        specKeysMatch hk ck = true) := by decide

set_option maxHeartbeats 2000000 in
set_option maxRecDepth 10000 in
theorem keys_match_named_eq_amended :
    ∀ n1 n2 : KeyName,
      keys_match (.named n1) (.named n2) = amendedKeysMatch (.named n1) (.named n2) := by
  decide

theorem keys_match_eq_amended (k1 k2 : PKey) :
    keys_match k1 k2 = amendedKeysMatch k1 k2 := by
  cases k1 with
  | named n1 =>
    cases k2 with
    | named n2 => exact keys_match_named_eq_amended n1 n2
    | code c vk =>
      simp [keys_match, amendedKeysMatch, isVariantAmended, isVariantSpec, modifierStrs]
  | code c1 vk1 =>
    cases k2 with
    | named n2 =>
      simp [keys_match, amendedKeysMatch, isVariantAmended, isVariantSpec, modifierStrs]
    | code c2 vk2 =>
      by_cases h : PKey.code c1 vk1 = PKey.code c2 vk2
      · simp [keys_match, amendedKeysMatch, h]
      · have hbe : (PKey.code c1 vk1 == PKey.code c2 vk2) = false :=
          beq_eq_false_iff_ne.mpr h
        have hmod : modifierStrs.any (fun m =>
            isVariantAmended (.code c1 vk1) m && isVariantAmended (.code c2 vk2) m) = false := by
          simp [modifierStrs, isVariantAmended, isVariantSpec]
        simp only [keys_match, if_neg h, amendedKeysMatch, hbe, hmod, Bool.false_or]
        cases c1 with
        | none => cases c2 <;> simp
        | some a =>
          cases c2 with
          | none => simp
          | some b => by_cases hc : a.toLower = b.toLower <;> simp [hc]

/-- Claim C8 (amended): the hotkey match succeeds exactly when every key of
the combination matches some pressed key, where two keys match when they
are equal, when both are variants of the same modifier — left, right or
plain, with AltGr additionally counting as an `alt` variant — or when they
are character keys with the same character ignoring case. -/
theorem check_hotkey_iff (H C : List PKey) :
    check_hotkey H C = true ↔
      ∀ hk ∈ H, ∃ ck ∈ C, amendedKeysMatch hk ck = true := by
  unfold check_hotkey
  simp only [List.all_eq_true, List.any_eq_true, keys_match_eq_amended]

/-- Witness for the amended C8: left control matches a plain-control
hotkey. -/
theorem check_hotkey_iff_witness :
    check_hotkey [PKey.named .ctrl] [PKey.named .ctrl_l] = true :=
  (check_hotkey_iff [PKey.named .ctrl] [PKey.named .ctrl_l]).mpr (by decide)
